import Mathlib

/-!
Verification of the hex codec and node-config assembler in
`packages/fuels-test-helpers/src/node.rs`.

Bytes are modelled as `Nat` values below 256, byte sequences as `List Nat`,
strings as Lean `String`.  Fallible decoding returns `Except CodecError`.
-/

/-- Error taxonomy of the decode path.  In the source both hex errors and
length errors are surfaced through `serde::de::Error::custom`; the spec
names them `InvalidHex`, `LengthMismatch` and `Overflow`. -/
inductive CodecError where
  | InvalidHex
  | LengthMismatch
  | Overflow
deriving DecidableEq, Repr

/-- Errors of the `hex` crate's `FromHex` for `Vec<u8>`. -/
inductive HexError where
  | InvalidHexCharacter
  | OddLength
deriving DecidableEq, Repr

/-- Decidable equality on `Except`, so concrete codec runs can be settled
by `decide`. -/
instance {ε α : Type} [DecidableEq ε] [DecidableEq α] : DecidableEq (Except ε α)
  | Except.ok a, Except.ok b =>
    if h : a = b then isTrue (by rw [h]) else isFalse (by intro he; cases he; exact h rfl)
  | Except.ok _, Except.error _ => isFalse (by intro h; cases h)
  | Except.error _, Except.ok _ => isFalse (by intro h; cases h)
  | Except.error a, Except.error b =>
    if h : a = b then isTrue (by rw [h]) else isFalse (by intro he; cases he; exact h rfl)

/-- `hex` crate `val`: value of one hex digit, accepting `0-9`, `a-f`, `A-F`. -/
def hexDigitVal? (c : Char) : Option Nat :=
  if 'A' ≤ c ∧ c ≤ 'F' then some (c.toNat - 'A'.toNat + 10)
  else if 'a' ≤ c ∧ c ≤ 'f' then some (c.toNat - 'a'.toNat + 10)
  else if '0' ≤ c ∧ c ≤ '9' then some (c.toNat - '0'.toNat)
  else none

/-- A character accepted by `hexDigitVal?`. -/
def isHexChar (c : Char) : Bool :=
  (hexDigitVal? c).isSome

/-- Lowercase hex digit of a value below 16, as emitted by the `hex`
crate's `encode_hex`. -/
def toLowerHexDigit (n : Nat) : Char :=
  if n < 10 then Char.ofNat ('0'.toNat + n) else Char.ofNat ('a'.toNat + (n - 10))

/-- `hex` crate `encode_hex`: two lowercase digits per byte, high nibble
first. -/
def encodeHex : List Nat → List Char
  | [] => []
  | b :: bs => toLowerHexDigit (b / 16) :: toLowerHexDigit (b % 16) :: encodeHex bs

/-- `hex` crate `FromHex for Vec<u8>`, pair conversion: consumes the
characters two at a time, failing on the first non-hex digit. -/
def fromHexPairs : List Char → Except HexError (List Nat)
  | [] => Except.ok []
  | [_] => Except.error HexError.OddLength
  | c1 :: c2 :: rest =>
    match hexDigitVal? c1, hexDigitVal? c2 with
    | some hi, some lo => Except.map (fun bs => (hi * 16 + lo) :: bs) (fromHexPairs rest)
    | _, _ => Except.error HexError.InvalidHexCharacter

/-- `hex` crate `FromHex for Vec<u8>`: odd total length is rejected first,
then digits are consumed in pairs. -/
def fromHex (p : List Char) : Except HexError (List Nat) :=
  if p.length % 2 = 1 then Except.error HexError.OddLength else fromHexPairs p

/-- Rust `str::trim_start_matches("0x")`: repeatedly removes a leading
`"0x"`, as called in `serde_hex::deserialize`. -/
def trimStartMatches0x : List Char → List Char
  | c1 :: c2 :: rest =>
    if c1 = '0' ∧ c2 = 'x' then trimStartMatches0x rest else c1 :: c2 :: rest
  | s => s

/-- `serde_hex::serialize`: `format!("0x{}", target.encode_hex())`. -/
def serde_hex.serialize (bs : List Nat) : String :=
  ⟨'0' :: 'x' :: encodeHex bs⟩

/-- `serde_hex::deserialize` instantiated at a fixed-length byte target of
`n` bytes (`Bytes32`, `Address`, `AssetId`): strip `"0x"` prefixes,
hex-decode, then `T::try_from(&[u8])`, which fails exactly when the slice
length differs from `n`. -/
def serde_hex.deserialize (n : Nat) (s : String) : Except CodecError (List Nat) :=
  match fromHex (trimStartMatches0x s.data) with
  | Except.error _ => Except.error CodecError.InvalidHex
  | Except.ok bytes =>
    if bytes.length = n then Except.ok bytes else Except.error CodecError.LengthMismatch

/-- `serde_hex::deserialize` instantiated at `Vec<u8>` (the `HexNumber`
path), whose `TryFrom<&[u8]>` never fails. -/
def serde_hex.deserializeVec (s : String) : Except CodecError (List Nat) :=
  match fromHex (trimStartMatches0x s.data) with
  | Except.error _ => Except.error CodecError.InvalidHex
  | Except.ok bytes => Except.ok bytes

/-- `fuel_vm::consts::WORD_SIZE`, the byte width of a `Word` (`u64`). -/
def WORD_SIZE : Nat := 8

/-- Big-endian bytes of `v`, `width` bytes wide: `u64::to_be_bytes` when
`width = 8` and `v < 2^64`. -/
def toBeBytes (width : Nat) (v : Nat) : List Nat :=
  match width with
  | 0 => []
  | w + 1 => v / 256 ^ w % 256 :: toBeBytes w v

/-- `u64::from_be_bytes` on a byte list: big-endian accumulation. -/
def fromBeBytes (bs : List Nat) : Nat :=
  bs.foldl (fun acc b => acc * 256 + b) 0

/-- `HexNumber::serialize_as` for `u64`: serialize the big-endian bytes
through `serde_hex::serialize`. -/
def HexNumber.serialize_as (v : Nat) : String :=
  serde_hex.serialize (toBeBytes WORD_SIZE v)

/-- `HexNumber::deserialize_as` for `Word`: hex-decode to raw bytes, fail
with `Overflow` when more than `WORD_SIZE` bytes, left-pad with zero bytes
when fewer, then `Word::from_be_bytes`. -/
def HexNumber.deserialize_as (s : String) : Except CodecError Nat :=
  match serde_hex.deserializeVec s with
  | Except.error e => Except.error e
  | Except.ok bytes =>
    if bytes.length > WORD_SIZE then Except.error CodecError.Overflow
    else if bytes.length < WORD_SIZE then
      Except.ok (fromBeBytes (List.replicate (WORD_SIZE - bytes.length) 0 ++ bytes))
    else Except.ok (fromBeBytes bytes)

/-- A JSON value (model of `serde_json::Value` as used here): objects keep
their fields as an ordered association list. -/
inductive Json where
  | str : String → Json
  | arr : List Json → Json
  | obj : List (String × Json) → Json

/-- Association-list lookup on string keys. -/
def lookupStr : List (String × Json) → String → Option Json
  | [], _ => none
  | (k1, v) :: rest, k => if k1 = k then some v else lookupStr rest k

/-- Key lookup in a JSON object; `none` on non-objects. -/
def Json.getKey? : Json → String → Option Json
  | Json.obj kvs, k => lookupStr kvs k
  | _, _ => none

/-- The keys of a JSON object, in emission order; `[]` on non-objects. -/
def Json.topKeys : Json → List String
  | Json.obj kvs => kvs.map Prod.fst
  | _ => []

/-- One optional field of a serde struct under `#[skip_serializing_none]`:
a `None` value contributes no key at all. -/
def optField (k : String) : Option Json → List (String × Json)
  | none => []
  | some v => [(k, v)]

/-- `CoinConfig`: the coin record struct, with its optional fields.
`Bytes32`/`Address`/`AssetId` values are byte lists, `u64`/`BlockHeight`
values are naturals. -/
structure CoinConfig where
  tx_id : Option (List Nat)
  output_index : Option Nat
  block_created : Option Nat
  maturity : Option Nat
  owner : List Nat
  amount : Nat
  asset_id : List Nat

/-- Serialization of `CoinConfig` under `#[skip_serializing_none]` and the
`#[serde_as]` field annotations: fields in declaration order, byte fields
through `serde_hex::serialize`, numeric fields through
`HexNumber::serialize_as`, absent optional fields omitted entirely. -/
def CoinConfig.toJson (c : CoinConfig) : Json :=
  Json.obj
    (optField "tx_id" (c.tx_id.map (fun b => Json.str (serde_hex.serialize b))) ++
     optField "output_index" (c.output_index.map (fun v => Json.str (HexNumber.serialize_as v))) ++
     optField "block_created" (c.block_created.map (fun v => Json.str (HexNumber.serialize_as v))) ++
     optField "maturity" (c.maturity.map (fun v => Json.str (HexNumber.serialize_as v))) ++
     [("owner", Json.str (serde_hex.serialize c.owner)),
      ("amount", Json.str (HexNumber.serialize_as c.amount)),
      ("asset_id", Json.str (serde_hex.serialize c.asset_id))])

/-- `fuel_tx::UtxoId`: a transaction id plus an output index (the index is
an `u8` in the source, widened with `as u64` before use). -/
structure UtxoId where
  tx_id : List Nat
  output_index : Nat

/-- `fuel_core_interfaces::model::Coin`, restricted to the fields
`get_node_config_json` reads. -/
structure Coin where
  owner : List Nat
  amount : Nat
  asset_id : List Nat
  maturity : Nat
  block_created : Nat

/-- Modelled from the spec: the default `ConsensusParameters` document is
an opaque, fixed parameter bag defined outside this repository
(`fuel_tx::ConsensusParameters::default()`); its concrete contents are
irrelevant to every property proved here. -/
def defaultTransactionParameters : Json :=
  Json.obj []

/-- The coin records rendered by `get_node_config_json`: each
`(UtxoId, Coin)` pair becomes a `CoinConfig` with every optional field set
with `Some`, then serialized. -/
def renderedCoins (coins : List (UtxoId × Coin)) : List Json :=
  coins.map (fun uc =>
    CoinConfig.toJson
      { tx_id := some uc.1.tx_id
        output_index := some uc.1.output_index
        block_created := some uc.2.block_created
        maturity := some uc.2.maturity
        owner := uc.2.owner
        amount := uc.2.amount
        asset_id := uc.2.asset_id })

/-- `get_node_config_json`: assembles the config document from the coin
list and the optional consensus parameters (defaulted when absent). -/
def get_node_config_json (coins : List (UtxoId × Coin))
    (consensus_parameters_config : Option Json) : Json :=
  Json.obj
    [("chain_name", Json.str "local_testnet"),
     ("block_production", Json.str "Instant"),
     ("parent_network", Json.obj [("type", Json.str "LocalTest")]),
     ("initial_state", Json.obj [("coins", Json.arr (renderedCoins coins))]),
     ("transaction_parameters",
      consensus_parameters_config.getD defaultTransactionParameters)]

mutual

/-- Compact JSON text of a value (model of `serde_json::to_string`; the
strings emitted here never need escaping). -/
def Json.serializeText : Json → String
  | Json.str s => "\"" ++ s ++ "\""
  | Json.arr xs => "[" ++ serializeElems xs ++ "]"
  | Json.obj kvs => "\x7b" ++ serializeFields kvs ++ "\x7d"

/-- Comma-separated serialization of array elements. -/
def serializeElems : List Json → String
  | [] => ""
  | [x] => Json.serializeText x
  | x :: y :: rest => Json.serializeText x ++ "," ++ serializeElems (y :: rest)

/-- Comma-separated serialization of object fields. -/
def serializeFields : List (String × Json) → String
  | [] => ""
  | [(k, v)] => "\"" ++ k ++ "\":" ++ Json.serializeText v
  | (k, v) :: kv :: rest =>
    "\"" ++ k ++ "\":" ++ Json.serializeText v ++ "," ++ serializeFields (kv :: rest)

end

/-- A lowercase hexadecimal digit, as the spec's canonical text demands. -/
def isLowerHexDigit (c : Char) : Bool :=
  c.isDigit || ('a' ≤ c && c ≤ 'f')

/-- `k` copies of the `"0x"` marker in front of `p`. -/
def prepend0x : Nat → String → String
  | 0, p => p
  | k + 1, p => "0x" ++ prepend0x k p

/-- A sample identifier used as concrete input. -/
def sampleUtxo : UtxoId :=
  { tx_id := List.replicate 32 1, output_index := 0 }

/-- A sample coin used as concrete input. -/
def sampleCoin : Coin :=
  { owner := List.replicate 32 17
    amount := 1000
    asset_id := List.replicate 32 34
    maturity := 0
    block_created := 0 }

theorem trimStartMatches0x_cons0x (l : List Char) :
    trimStartMatches0x ('0' :: 'x' :: l) = trimStartMatches0x l := by
  simp [trimStartMatches0x]

theorem hexDigitVal_toLowerHexDigit {m : Nat} (h : m < 16) :
    hexDigitVal? (toLowerHexDigit m) = some m := by
  interval_cases m <;> decide

theorem toLowerHexDigit_ne_x {m : Nat} (h : m < 16) : toLowerHexDigit m ≠ 'x' := by
  interval_cases m <;> decide

theorem isLowerHexDigit_toLowerHexDigit {m : Nat} (h : m < 16) :
    isLowerHexDigit (toLowerHexDigit m) = true := by
  interval_cases m <;> decide

theorem encodeHex_length (bs : List Nat) : (encodeHex bs).length = 2 * bs.length := by
  induction bs with
  | nil => rfl
  | cons b bs ih => simp [encodeHex, ih]; omega

theorem fromHexPairs_encodeHex (bs : List Nat) (h : ∀ b ∈ bs, b < 256) :
    fromHexPairs (encodeHex bs) = Except.ok bs := by
  induction bs with
  | nil => rfl
  | cons b bs ih =>
    have hb : b < 256 := h b (by simp)
    have h1 : b / 16 < 16 := Nat.div_lt_of_lt_mul (by omega)
    have h2 : b % 16 < 16 := Nat.mod_lt _ (by norm_num)
    have ih2 := ih (fun x hx => h x (by simp [hx]))
    simp [encodeHex, fromHexPairs, hexDigitVal_toLowerHexDigit h1,
      hexDigitVal_toLowerHexDigit h2, ih2, Except.map]
    omega

theorem trimStartMatches0x_encodeHex (bs : List Nat) :
    trimStartMatches0x (encodeHex bs) = encodeHex bs := by
  cases bs with
  | nil => rfl
  | cons b bs =>
    show trimStartMatches0x
        (toLowerHexDigit (b / 16) :: toLowerHexDigit (b % 16) :: encodeHex bs) = _
    simp only [trimStartMatches0x]
    rw [if_neg (by
      rintro ⟨-, h2⟩
      exact toLowerHexDigit_ne_x (Nat.mod_lt _ (by norm_num)) h2)]
    rfl

theorem fromHexPairs_ok_aux :
    ∀ (m : Nat) (p : List Char), p.length ≤ m → p.length % 2 = 0 →
      p.all isHexChar = true →
      ∃ bs, fromHexPairs p = Except.ok bs ∧ bs.length = p.length / 2 := by
  intro m
  induction m with
  | zero =>
    intro p hm _ _
    have hnil : p = [] := List.eq_nil_of_length_eq_zero (by omega)
    subst hnil
    exact ⟨[], rfl, rfl⟩
  | succ m ih =>
    intro p hm h2 hall
    match p with
    | [] => exact ⟨[], rfl, rfl⟩
    | [c] => simp at h2
    | c1 :: c2 :: rest =>
      simp only [List.all_cons, Bool.and_eq_true] at hall
      obtain ⟨hc1, hc2, hrest⟩ := hall
      simp only [isHexChar] at hc1 hc2
      obtain ⟨hi, hhi⟩ := Option.isSome_iff_exists.mp hc1
      obtain ⟨lo, hlo⟩ := Option.isSome_iff_exists.mp hc2
      have hmr : rest.length ≤ m := by simp at hm; omega
      have h2r : rest.length % 2 = 0 := by simp at h2 ⊢; omega
      obtain ⟨bs, hok, hbs⟩ := ih rest hmr h2r hrest
      refine ⟨(hi * 16 + lo) :: bs, ?_, ?_⟩
      · simp [fromHexPairs, hhi, hlo, hok, Except.map]
      · simp [hbs]
        omega

theorem fromHexPairs_err_aux :
    ∀ (m : Nat) (p : List Char), p.length ≤ m → p.length % 2 = 0 →
      p.all isHexChar = false →
      fromHexPairs p = Except.error HexError.InvalidHexCharacter := by
  intro m
  induction m with
  | zero =>
    intro p hm _ hall
    have hnil : p = [] := List.eq_nil_of_length_eq_zero (by omega)
    subst hnil
    simp at hall
  | succ m ih =>
    intro p hm h2 hall
    match p with
    | [] => simp at hall
    | [c] => simp at h2
    | c1 :: c2 :: rest =>
      cases hv1 : hexDigitVal? c1 with
      | none => simp [fromHexPairs, hv1]
      | some hi =>
        cases hv2 : hexDigitVal? c2 with
        | none => simp [fromHexPairs, hv1, hv2]
        | some lo =>
          have hrest : rest.all isHexChar = false := by
            simp only [List.all_cons, isHexChar, hv1, hv2] at hall
            simpa using hall
          have herr := ih rest (by simp at hm; omega) (by simp at h2 ⊢; omega) hrest
          simp [fromHexPairs, hv1, hv2, herr, Except.map]

/-- C7: `serde_hex::deserialize` at an `n`-byte fixed-length target fails
with `InvalidHex` exactly when the payload after prefix stripping has odd
length or a non-hex character, fails with `LengthMismatch` exactly when
the payload is valid hex but decodes to a byte count other than `n`, and
succeeds otherwise. -/
theorem decode_bytes_error_taxonomy (s : String) (n : Nat) :
    (serde_hex.deserialize n s = Except.error CodecError.InvalidHex ↔
      (trimStartMatches0x s.data).length % 2 = 1 ∨
        (trimStartMatches0x s.data).all isHexChar = false) ∧
    (serde_hex.deserialize n s = Except.error CodecError.LengthMismatch ↔
      (trimStartMatches0x s.data).length % 2 = 0 ∧
        (trimStartMatches0x s.data).all isHexChar = true ∧
        (trimStartMatches0x s.data).length / 2 ≠ n) ∧
    ((∃ bs, serde_hex.deserialize n s = Except.ok bs) ↔
      (trimStartMatches0x s.data).length % 2 = 0 ∧
        (trimStartMatches0x s.data).all isHexChar = true ∧
        (trimStartMatches0x s.data).length / 2 = n) := by
  generalize hp : trimStartMatches0x s.data = p
  have hd : serde_hex.deserialize n s =
      match fromHex p with
      | Except.error _ => Except.error CodecError.InvalidHex
      | Except.ok bytes =>
        if bytes.length = n then Except.ok bytes
        else Except.error CodecError.LengthMismatch := by
    unfold serde_hex.deserialize
    rw [hp]
  rcases Nat.mod_two_eq_zero_or_one p.length with h2 | h2
  · cases hall : p.all isHexChar
    · have hfx : fromHex p = Except.error HexError.InvalidHexCharacter := by
        unfold fromHex
        rw [if_neg (by omega)]
        exact fromHexPairs_err_aux p.length p le_rfl h2 hall
      rw [hd, hfx]
      refine ⟨?_, ?_, ?_⟩ <;> simp [h2, hall]
    · obtain ⟨bs, hok, hbs⟩ := fromHexPairs_ok_aux p.length p le_rfl h2 hall
      have hfx : fromHex p = Except.ok bs := by
        unfold fromHex
        rw [if_neg (by omega)]
        exact hok
      rw [hd, hfx]
      by_cases hn : bs.length = n
      · have hpn : p.length / 2 = n := by omega
        refine ⟨?_, ?_, ?_⟩ <;> simp [hn, h2, hall, hpn]
      · have hpn : ¬p.length / 2 = n := by omega
        refine ⟨?_, ?_, ?_⟩ <;> simp [hn, h2, hall, hpn]
  · have hfx : fromHex p = Except.error HexError.OddLength := by
      unfold fromHex
      rw [if_pos h2]
    rw [hd, hfx]
    refine ⟨?_, ?_, ?_⟩ <;> simp [h2]

/-- C1: decoding the encoding of any fixed-length byte value returns the
original value. -/
theorem encode_decode_bytes_roundtrip (v : List Nat) (h : ∀ b ∈ v, b < 256) :
    serde_hex.deserialize v.length (serde_hex.serialize v) = Except.ok v := by
  have hdata : (serde_hex.serialize v).data = '0' :: 'x' :: encodeHex v := rfl
  unfold serde_hex.deserialize
  rw [hdata, trimStartMatches0x_cons0x, trimStartMatches0x_encodeHex]
  unfold fromHex
  rw [encodeHex_length, if_neg (by omega), fromHexPairs_encodeHex v h]
  simp

/-- Witness for C1 at a concrete three-byte value. -/
theorem encode_decode_bytes_roundtrip_witness :
    serde_hex.deserialize 3 (serde_hex.serialize [17, 171, 0]) = Except.ok [17, 171, 0] :=
  encode_decode_bytes_roundtrip [17, 171, 0] (by decide)

/-- C6: the `"0x"` prefix is optional and the hex digits are
case-insensitive, so every digit-case variant with or without the prefix
decodes to the same byte; the prefix match itself is case-sensitive, so a
`"0X"` prefix is not stripped and its `X` is rejected as a non-hex
character. -/
theorem decode_bytes_prefix_tolerance :
    serde_hex.deserialize 1 "0xAB" = Except.ok [171] ∧
    serde_hex.deserialize 1 "0xab" = Except.ok [171] ∧
    serde_hex.deserialize 1 "0xAb" = Except.ok [171] ∧
    serde_hex.deserialize 1 "0xaB" = Except.ok [171] ∧
    serde_hex.deserialize 1 "AB" = Except.ok [171] ∧
    serde_hex.deserialize 1 "ab" = Except.ok [171] ∧
    serde_hex.deserialize 1 "Ab" = Except.ok [171] ∧
    serde_hex.deserialize 1 "aB" = Except.ok [171] ∧
    serde_hex.deserialize 1 "0XAB" = Except.error CodecError.InvalidHex := by
  decide

theorem deserialize_cons0x (n : Nat) (p : String) :
    serde_hex.deserialize n ("0x" ++ p) = serde_hex.deserialize n p := by
  unfold serde_hex.deserialize
  rw [String.data_append]
  show (match fromHex (trimStartMatches0x ('0' :: 'x' :: p.data)) with
    | Except.error _ => Except.error CodecError.InvalidHex
    | Except.ok bytes =>
      if bytes.length = n then Except.ok bytes
      else Except.error CodecError.LengthMismatch) = _
  rw [trimStartMatches0x_cons0x]

/-- C10: prefix stripping removes every leading repetition of `"0x"`, so
`"0x0x" ++ p` (and any number of further repetitions) decodes exactly as
`p` does; in particular `"0x0x0xab"` still decodes. -/
theorem decode_bytes_strips_repeated_0x (n k : Nat) (p : String) :
    serde_hex.deserialize n ("0x0x" ++ p) = serde_hex.deserialize n p ∧
    serde_hex.deserialize n (prepend0x k p) = serde_hex.deserialize n p ∧
    serde_hex.deserialize 1 "0x0x0xab" = Except.ok [171] := by
  refine ⟨?_, ?_, by decide⟩
  · have hsplit : ("0x0x" ++ p) = "0x" ++ ("0x" ++ p) := by
      simp [← String.append_assoc]
    rw [hsplit, deserialize_cons0x, deserialize_cons0x]
  · induction k with
    | zero => rfl
    | succ k ih => rw [prepend0x, deserialize_cons0x, ih]

/-- C2: the `Word` decoder at width 8 rejects hex payloads longer than 8
bytes with `Overflow` (in particular the 9-byte example), left-pads
shorter payloads (including the empty `"0x"`) with zero bytes to exactly
8, and reads the result as a big-endian unsigned 64-bit integer. -/
theorem decode_number_width8_spec :
    (∀ (s : String) (bs : List Nat), serde_hex.deserializeVec s = Except.ok bs →
      (bs.length > 8 → HexNumber.deserialize_as s = Except.error CodecError.Overflow) ∧
      (bs.length ≤ 8 →
        HexNumber.deserialize_as s =
          Except.ok (fromBeBytes (List.replicate (8 - bs.length) 0 ++ bs)))) ∧
    HexNumber.deserialize_as "0x0102030405060708ff" = Except.error CodecError.Overflow ∧
    HexNumber.deserialize_as "0x" = Except.ok 0 := by
  refine ⟨?_, by decide, by decide⟩
  intro s bs h
  constructor
  · intro hlen
    unfold HexNumber.deserialize_as
    rw [h]
    simp only [WORD_SIZE]
    rw [if_pos hlen]
  · intro hlen
    unfold HexNumber.deserialize_as
    rw [h]
    simp only [WORD_SIZE]
    rcases Nat.lt_or_ge bs.length 8 with hl | hl
    · rw [if_neg (by omega), if_pos hl]
    · have h8 : bs.length = 8 := by omega
      rw [if_neg (by omega), if_neg (by omega)]
      simp [h8]

/-- Witness for C2 at the one-byte payload `"0xff"`. -/
theorem decode_number_width8_spec_witness :
    HexNumber.deserialize_as "0xff" =
      Except.ok (fromBeBytes (List.replicate (8 - List.length [255]) 0 ++ [255])) :=
  (decode_number_width8_spec.1 "0xff" [255] (by decide)).2 (by decide)

theorem toBeBytes_length (w v : Nat) : (toBeBytes w v).length = w := by
  induction w generalizing v with
  | zero => rfl
  | succ w ih => simp [toBeBytes, ih]

theorem toBeBytes_lt (w v : Nat) : ∀ b ∈ toBeBytes w v, b < 256 := by
  induction w generalizing v with
  | zero => simp [toBeBytes]
  | succ w ih =>
    intro b hb
    simp only [toBeBytes, List.mem_cons] at hb
    rcases hb with hb | hb
    · subst hb
      exact Nat.mod_lt _ (by norm_num)
    · exact ih v b hb

theorem encodeHex_lower (bs : List Nat) (h : ∀ b ∈ bs, b < 256) :
    ∀ c ∈ encodeHex bs, isLowerHexDigit c = true := by
  induction bs with
  | nil => simp [encodeHex]
  | cons b bs ih =>
    intro c hc
    have hb : b < 256 := h b (by simp)
    simp only [encodeHex, List.mem_cons] at hc
    rcases hc with hc | hc | hc
    · subst hc
      exact isLowerHexDigit_toLowerHexDigit (Nat.div_lt_of_lt_mul (by omega))
    · subst hc
      exact isLowerHexDigit_toLowerHexDigit (Nat.mod_lt _ (by norm_num))
    · exact ih (fun x hx => h x (by simp [hx])) c hc

/-- C3: `encode_number` at width 8 always emits `"0x"` plus exactly 16
lowercase hex digits of the value's big-endian bytes (18 characters in
all); zero encodes to sixteen `0` digits and 1000 to
`"0x00000000000003e8"`. -/
theorem encode_number_width8_canonical (v : Nat) (h : v < 2 ^ 64) :
    (HexNumber.serialize_as v).length = 18 ∧
    (HexNumber.serialize_as v).data.take 2 = ['0', 'x'] ∧
    (HexNumber.serialize_as v).data.drop 2 = encodeHex (toBeBytes 8 v) ∧
    (∀ c ∈ (HexNumber.serialize_as v).data.drop 2, isLowerHexDigit c = true) ∧
    HexNumber.serialize_as 0 = "0x0000000000000000" ∧
    HexNumber.serialize_as 1000 = "0x00000000000003e8" := by
  have hdata : (HexNumber.serialize_as v).data =
      '0' :: 'x' :: encodeHex (toBeBytes 8 v) := rfl
  refine ⟨?_, ?_, ?_, ?_, by decide, by decide⟩
  · show (HexNumber.serialize_as v).data.length = 18
    rw [hdata]
    simp [encodeHex_length, toBeBytes_length]
  · rw [hdata]
    rfl
  · rw [hdata]
    rfl
  · intro c hc
    rw [hdata] at hc
    simp only [List.drop_succ_cons, List.drop_zero] at hc
    exact encodeHex_lower (toBeBytes 8 v) (toBeBytes_lt 8 v) c hc

/-- Witness for C3 at the value 5. -/
theorem encode_number_width8_canonical_witness :
    (HexNumber.serialize_as 5).length = 18 :=
  (encode_number_width8_canonical 5 (by norm_num)).1

/-- C4: serializing a `CoinConfig` whose optional field is `None` emits no
key for that field at all. -/
theorem coin_config_none_fields_omitted (c : CoinConfig) :
    (c.tx_id = none → "tx_id" ∉ Json.topKeys (CoinConfig.toJson c)) ∧
    (c.output_index = none → "output_index" ∉ Json.topKeys (CoinConfig.toJson c)) ∧
    (c.block_created = none → "block_created" ∉ Json.topKeys (CoinConfig.toJson c)) ∧
    (c.maturity = none → "maturity" ∉ Json.topKeys (CoinConfig.toJson c)) := by
  obtain ⟨t, o, bc, m, ow, am, ai⟩ := c
  refine ⟨?_, ?_, ?_, ?_⟩ <;> intro h <;>
    cases t <;> cases o <;> cases bc <;> cases m <;>
    simp [CoinConfig.toJson, Json.topKeys, optField] at h ⊢

/-- Witness for C4: the coin record of the spec's example scenario, with
every optional field unset. -/
theorem coin_config_none_fields_omitted_witness :
    "block_created" ∉ Json.topKeys (CoinConfig.toJson
      { tx_id := none
        output_index := none
        block_created := none
        maturity := none
        owner := List.replicate 32 17
        amount := 1000
        asset_id := List.replicate 32 34 }) :=
  (coin_config_none_fields_omitted
    { tx_id := none
      output_index := none
      block_created := none
      maturity := none
      owner := List.replicate 32 17
      amount := 1000
      asset_id := List.replicate 32 34 }).2.2.1 rfl

/-- C5: the assembled document has exactly the five fixed top-level keys,
with the constant chain name, production mode and parent network, the
rendered coins under `initial_state.coins`, and the (defaulted) parameter
set under `transaction_parameters`. -/
theorem node_config_top_level_keys (coins : List (UtxoId × Coin))
    (params : Option Json) :
    Json.topKeys (get_node_config_json coins params) =
      ["chain_name", "block_production", "parent_network", "initial_state",
        "transaction_parameters"] ∧
    (get_node_config_json coins params).getKey? "chain_name" =
      some (Json.str "local_testnet") ∧
    (get_node_config_json coins params).getKey? "block_production" =
      some (Json.str "Instant") ∧
    (get_node_config_json coins params).getKey? "parent_network" =
      some (Json.obj [("type", Json.str "LocalTest")]) ∧
    (get_node_config_json coins params).getKey? "initial_state" =
      some (Json.obj [("coins", Json.arr (renderedCoins coins))]) ∧
    (get_node_config_json coins params).getKey? "transaction_parameters" =
      some (params.getD defaultTransactionParameters) := by
  refine ⟨?_, ?_, ?_, ?_, ?_, ?_⟩ <;>
    simp [get_node_config_json, Json.topKeys, Json.getKey?, lookupStr]

/-- C8: document assembly and serialization are deterministic — equal coin
sequences and equal parameter sets give byte-identical serialized text. -/
theorem node_config_deterministic (coins1 coins2 : List (UtxoId × Coin))
    (p1 p2 : Option Json) (hc : coins1 = coins2) (hp : p1 = p2) :
    Json.serializeText (get_node_config_json coins1 p1) =
      Json.serializeText (get_node_config_json coins2 p2) := by
  rw [hc, hp]

/-- Witness for C8 at concrete inputs. -/
theorem node_config_deterministic_witness :
    Json.serializeText (get_node_config_json [(sampleUtxo, sampleCoin)] none) =
      Json.serializeText (get_node_config_json [(sampleUtxo, sampleCoin)] none) :=
  node_config_deterministic [(sampleUtxo, sampleCoin)] [(sampleUtxo, sampleCoin)]
    none none rfl rfl

/-- C9: on the document-building path every optional field of each
rendered coin record is set with `Some`, so every record in
`initial_state.coins` carries all seven keys. -/
theorem node_config_coins_all_fields_set (coins : List (UtxoId × Coin))
    (params : Option Json) :
    (get_node_config_json coins params).getKey? "initial_state" =
      some (Json.obj [("coins", Json.arr (renderedCoins coins))]) ∧
    ∀ j ∈ renderedCoins coins,
      Json.topKeys j =
        ["tx_id", "output_index", "block_created", "maturity", "owner", "amount",
          "asset_id"] := by
  constructor
  · simp [get_node_config_json, Json.getKey?, lookupStr]
  · intro j hj
    simp only [renderedCoins, List.mem_map] at hj
    obtain ⟨uc, -, rfl⟩ := hj
    simp [CoinConfig.toJson, Json.topKeys, optField]

/-- Witness for C9 at a one-coin input. -/
theorem node_config_coins_all_fields_set_witness :
    Json.topKeys (CoinConfig.toJson
      { tx_id := some sampleUtxo.tx_id
        output_index := some sampleUtxo.output_index
        block_created := some sampleCoin.block_created
        maturity := some sampleCoin.maturity
        owner := sampleCoin.owner
        amount := sampleCoin.amount
        asset_id := sampleCoin.asset_id }) =
      ["tx_id", "output_index", "block_created", "maturity", "owner", "amount",
        "asset_id"] :=
  (node_config_coins_all_fields_set [(sampleUtxo, sampleCoin)] none).2 _ (by
    simp [renderedCoins])
